import Mathlib

/-!
Verification of the `Timestamp` value type of `src/src/types/timestamp.rs`
(rust-oracle): the data model with its offset-attaching builders, the
`fmt::Display` formatter and the `str::FromStr` parser, shallowly embedded
over `List Char`.  Machine integers are modelled as `Nat`/`Int` with the
casts of the source (`as i32`, `as u32`, `as u8`) made explicit as
wrap-around operations.
-/

namespace RustOracle

/-- Wrap-around of an unbounded natural into `u32` (`as u32` in the source). -/
def u32cast (n : Nat) : Nat := n % 4294967296

/-- Wrap-around of an unbounded natural into `u8` (`as u8` in the source). -/
def u8cast (n : Nat) : Nat := n % 256

/-- Two's-complement wrap of an integer into the `i32` range
(`as i32` casts and wrapping `i32` arithmetic in the source). -/
def wrap32 (x : Int) : Int := (x + 2147483648) % 4294967296 - 2147483648

/-- The `Timestamp` struct of the source, field for field.  `year`,
`tz_hour_offset` and `tz_minute_offset` are `i32` (signed); `month`, `day`,
`hour`, `minute`, `second`, `nanosecond` are `u32`; `precision` is `u8`;
`with_tz` is `bool`. -/
structure Timestamp where
  year : Int
  month : Nat
  day : Nat
  hour : Nat
  minute : Nat
  second : Nat
  nanosecond : Nat
  tz_hour_offset : Int
  tz_minute_offset : Int
  precision : Nat
  with_tz : Bool
deriving DecidableEq, Repr

/-- `Timestamp::new`: zero offset, precision 0, no timezone. -/
def Timestamp.new (year : Int) (month day hour minute second nanosecond : Nat) :
    Timestamp :=
  { year := year, month := month, day := day, hour := hour, minute := minute,
    second := second, nanosecond := nanosecond, tz_hour_offset := 0,
    tz_minute_offset := 0, precision := 0, with_tz := false }

/-- `Timestamp::and_tz_offset`: hour and minute components from a total
offset in seconds.  Both branches divide a non-negative quantity (`offset`
itself, or `-offset`), mirroring the source's `if offset >= 0` split;
Rust `i32` division truncates, hence `Int.tdiv`/`Int.tmod`. -/
def Timestamp.and_tz_offset (ts : Timestamp) (offset : Int) : Timestamp :=
  let p : Int × Int :=
    if 0 ≤ offset then
      (Int.tdiv offset 3600, Int.tdiv (Int.tmod offset 3600) 60)
    else
      (Int.tdiv (-offset) 3600, Int.tdiv (Int.tmod (-offset) 3600) 60)
  { ts with
      tz_hour_offset := p.1,
      tz_minute_offset := p.2,
      with_tz := true }

/-- `Timestamp::and_tz_hm_offset`: sets both offset fields directly. -/
def Timestamp.and_tz_hm_offset (ts : Timestamp) (hour_offset minute_offset : Int) :
    Timestamp :=
  { ts with
      tz_hour_offset := hour_offset,
      tz_minute_offset := minute_offset,
      with_tz := true }

/-- `Timestamp::tz_offset`: total offset in seconds. -/
def Timestamp.tz_offset (ts : Timestamp) : Int :=
  ts.tz_hour_offset * 3600 + ts.tz_minute_offset * 60

/-! ## The scanner -/

/-- Modelled from the spec: the digit-run accumulation loop of the Text
Scanner collaborator (`util::Scanner`, whose code is not under `src/`):
consume ASCII digits while present, accumulating the value and the digit
count, and stop at the first non-digit.  `v` and `k` are the running value
and count. -/
def readDigitsAux : Nat → Nat → List Char → Nat × Nat × List Char
  | v, k, [] => (v, k, [])
  | v, k, c :: cs =>
    if c.isDigit then readDigitsAux (v * 10 + (c.toNat - 48)) (k + 1) cs
    else (v, k, c :: cs)

/-- Modelled from the spec: `read_digit_run` of the Scanner capability
(§6): `None` when the input does not start with a digit, otherwise the
run's value, its digit count, and the rest of the input. -/
def readDigits (cs : List Char) : Option (Nat × Nat × List Char) :=
  match cs with
  | [] => none
  | c :: _ => if c.isDigit then some (readDigitsAux 0 0 cs) else none

/-- The numeric value of a list of ASCII digit characters. -/
def digitsVal (ds : List Char) : Nat :=
  ds.foldl (fun a c => a * 10 + (c.toNat - 48)) 0

/-! ## The formatter -/

/-- The ASCII digit character of `n < 10`. -/
def digitChar (n : Nat) : Char := Char.ofNat (48 + n)

/-- Decimal digit characters of `n`, most significant first; fuel-driven
so that it is structurally recursive (the fuel `n + 1` always suffices). -/
def natDigitsAux : Nat → Nat → List Char → List Char
  | 0, _, acc => acc
  | fuel + 1, n, acc =>
    if n < 10 then digitChar n :: acc
    else natDigitsAux fuel (n / 10) (digitChar (n % 10) :: acc)

/-- Decimal rendering of a natural number (Rust `{}` on an unsigned value). -/
def natDigits (n : Nat) : List Char := natDigitsAux (n + 1) n []

/-- Left zero-padding to width `w` (Rust `{:0w}` format padding). -/
def padZero (w : Nat) (ds : List Char) : List Char :=
  List.replicate (w - ds.length) '0' ++ ds

/-- Rust `{:0w}` of a natural number. -/
def fmtNatPad (w n : Nat) : List Char := padZero w (natDigits n)

/-- Rust `{}` of an `i32`: a leading minus sign for negative values. -/
def fmtInt (y : Int) : List Char :=
  if y < 0 then '-' :: natDigits y.natAbs else natDigits y.natAbs

/-- Rust `{:+03}` of an `i32`: always-signed, digits zero-padded to two. -/
def fmtPlusPad3 (h : Int) : List Char :=
  (if h < 0 then '-' else '+') :: fmtNatPad 2 h.natAbs

/-- The fractional-seconds part of `fmt::Display for Timestamp`: the
ten-way `match self.precision` of lines 102-113 of the source. -/
def fmtFrac (p ns : Nat) : List Char :=
  match p with
  | 1 => '.' :: fmtNatPad 1 (ns / 100000000)
  | 2 => '.' :: fmtNatPad 2 (ns / 10000000)
  | 3 => '.' :: fmtNatPad 3 (ns / 1000000)
  | 4 => '.' :: fmtNatPad 4 (ns / 100000)
  | 5 => '.' :: fmtNatPad 5 (ns / 10000)
  | 6 => '.' :: fmtNatPad 6 (ns / 1000)
  | 7 => '.' :: fmtNatPad 7 (ns / 100)
  | 8 => '.' :: fmtNatPad 8 (ns / 10)
  | 9 => '.' :: fmtNatPad 9 ns
  | _ => []

/-- The timezone part of `fmt::Display for Timestamp`: lines 114-117 of
the source (`" {:+03}:{:02}"` of the hour offset and the minute offset's
absolute value, only when `with_tz`). -/
def fmtTz (wtz : Bool) (tzh tzm : Int) : List Char :=
  if wtz then ' ' :: (fmtPlusPad3 tzh ++ (':' :: fmtNatPad 2 tzm.natAbs)) else []

/-- `fmt::Display for Timestamp` (lines 99-120 of the source), as the
list of characters written. -/
def fmtTimestamp (ts : Timestamp) : List Char :=
  fmtInt ts.year ++
    ('-' :: (fmtNatPad 2 ts.month ++
      ('-' :: (fmtNatPad 2 ts.day ++
        (' ' :: (fmtNatPad 2 ts.hour ++
          (':' :: (fmtNatPad 2 ts.minute ++
            (':' :: (fmtNatPad 2 ts.second ++
              (fmtFrac ts.precision ts.nanosecond ++
                fmtTz ts.with_tz ts.tz_hour_offset ts.tz_minute_offset)))))))))))

/-- `ts.to_string()`. -/
def toStringTs (ts : Timestamp) : String := String.mk (fmtTimestamp ts)

/-! ## The parser -/

/-- The leading-minus step of `from_str` (lines 128-133). -/
def stripMinus (cs : List Char) : Bool × List Char :=
  if cs.head? = some '-' then (true, cs.tail) else (false, cs)

/-- The date-disambiguation step of `from_str` (lines 135-154): on
end-of-input, `T` or space the digit run is a compact `YYYYMMDD` when
greater than 10000 and a bare year otherwise; on `-` the month and an
optional `-`-prefixed day follow; anything else is an error.  Returns
`(year, month, day, rest)`. -/
def dateDisamb (rawYear : Nat) (cs : List Char) :
    Option (Nat × Nat × Nat × List Char) :=
  if cs.head? = none ∨ cs.head? = some 'T' ∨ cs.head? = some ' ' then
    if rawYear > 10000 then
      some (rawYear / 10000, rawYear / 100 % 100, rawYear % 100, cs)
    else
      some (rawYear, 1, 1, cs)
  else if cs.head? = some '-' then
    match readDigits cs.tail with
    | none => none
    | some (mo, _, r) =>
      if r.head? = some '-' then
        match readDigits r.tail with
        | none => none
        | some (d, _, r2) => some (rawYear, mo, d, r2)
      else
        some (rawYear, mo, 1, r)
  else none

/-- The time step of `from_str` (lines 166-182): an hour digit run, then
either `:`-separated minute and optional `:`-second, or a compact
6-digit `HHMMSS` run; any other shape is an error. -/
def parseTime (cs : List Char) : Option (Nat × Nat × Nat × List Char) :=
  match readDigits cs with
  | none => none
  | some (h, nd, r) =>
    if r.head? = some ':' then
      match readDigits r.tail with
      | none => none
      | some (mi, _, r2) =>
        if r2.head? = some ':' then
          match readDigits r2.tail with
          | none => none
          | some (sec, _, r3) => some (h, mi, sec, r3)
        else some (h, mi, 0, r2)
    else if nd = 6 then
      some (h / 10000, h / 100 % 100, h % 100, r)
    else none

/-- The fraction adjustment of `from_str` (lines 189-196): the digit
count is the precision; fewer than 9 digits scale up to nanoseconds, more
than 9 truncate down (in `u64` arithmetic) and force precision 9. -/
def fracAdjust (v d : Nat) : Nat × Nat :=
  if d < 9 then ((v * 10 ^ (9 - d)) % 18446744073709551616, d)
  else if d > 9 then (v / (10 ^ (d - 9) % 18446744073709551616), 9)
  else (v, d)

/-- The fractional-seconds step of `from_str` (lines 186-197): nothing
unless a `.` follows, then a mandatory digit run adjusted by
`fracAdjust`.  Returns `(nanosecond, precision, rest)`. -/
def parseFrac (cs : List Char) : Option (Nat × Nat × List Char) :=
  if cs.head? = some '.' then
    match readDigits cs.tail with
    | none => none
    | some (v, d, r) => some ((fracAdjust v d).1, (fracAdjust v d).2, r)
  else some (0, 0, cs)

/-- The optional single space before the timezone (lines 198-200). -/
def skipOneSpace (cs : List Char) : List Char :=
  if cs.head? = some ' ' then cs.tail else cs

/-- The timezone step of `from_str` (lines 201-233): a `+` or `-` sign
followed by a digit run, either `:`-split into hour and minute or compact
`HHMM`; a `-` sign negates both components afterwards; `Z` sets the flag
with zero offsets; anything else leaves the timezone absent.  The digit
values pass through `as i32` casts.  Returns
`(tz_hour, tz_minute, with_tz, rest)`. -/
def parseTz (cs : List Char) : Option (Int × Int × Bool × List Char) :=
  if cs.head? = some '+' then
    match readDigits cs.tail with
    | none => none
    | some (v, _, r) =>
      if r.head? = some ':' then
        match readDigits r.tail with
        | none => none
        | some (v2, _, r2) => some (wrap32 v, wrap32 v2, true, r2)
      else
        some (Int.tdiv (wrap32 v) 100, Int.tmod (wrap32 v) 100, true, r)
  else if cs.head? = some '-' then
    match readDigits cs.tail with
    | none => none
    | some (v, _, r) =>
      if r.head? = some ':' then
        match readDigits r.tail with
        | none => none
        | some (v2, _, r2) =>
          some (wrap32 (-wrap32 v), wrap32 (-wrap32 v2), true, r2)
      else
        some (wrap32 (-Int.tdiv (wrap32 v) 100),
              wrap32 (-Int.tmod (wrap32 v) 100), true, r)
  else if cs.head? = some 'Z' then
    some (0, 0, true, cs.tail)
  else
    some (0, 0, false, cs)

/-- Lines 198-233 combined: skip one optional space, then the timezone. -/
def tzStage (cs : List Char) : Option (Int × Int × Bool × List Char) :=
  parseTz (skipOneSpace cs)

/-- The assembly step of `from_str` (lines 238-245): `Timestamp::new`
with the `as i32`/`as u32` casts of the source, the precision `as u8`,
and the timezone attached through `and_tz_hm_offset` when present. -/
def buildTs (minus : Bool) (y mo d h mi s ns prec : Nat) (tzh tzm : Int)
    (wtz : Bool) : Timestamp :=
  let yr : Int := if minus then wrap32 (-wrap32 (y : Int)) else wrap32 (y : Int)
  let base := Timestamp.new yr (u32cast mo) (u32cast d) (u32cast h)
    (u32cast mi) (u32cast s) (u32cast ns)
  let base2 := { base with precision := u8cast prec }
  if wtz then base2.and_tz_hm_offset tzh tzm else base2

/-- `str::FromStr for Timestamp` (lines 125-246 of the source) over a
character list: optional minus, year digit run, date disambiguation, and
— unless the input is exhausted — a `T`/space separator, the time, the
optional fraction, the optional space and timezone, and the
no-trailing-characters check. -/
def parseChars (cs : List Char) : Option Timestamp :=
  let m := stripMinus cs
  match readDigits m.2 with
  | none => none
  | some (rawYear, _, cs2) =>
    match dateDisamb rawYear cs2 with
    | none => none
    | some (y, mo, d, cs3) =>
      if cs3 = [] then
        some (buildTs m.1 y mo d 0 0 0 0 0 0 0 false)
      else if cs3.head? = some 'T' ∨ cs3.head? = some ' ' then
        match parseTime cs3.tail with
        | none => none
        | some (h, mi, sec, cs4) =>
          match parseFrac cs4 with
          | none => none
          | some (ns, prec, cs5) =>
            match tzStage cs5 with
            | none => none
            | some (tzh, tzm, wtz, cs6) =>
              if cs6 = [] then
                some (buildTs m.1 y mo d h mi sec ns prec tzh tzm wtz)
              else none
      else none

/-- `"…".parse::<Timestamp>()`. -/
def parseTimestamp (s : String) : Option Timestamp := parseChars s.data

/-- Whether the input starts with an ASCII digit. -/
def headDigit (cs : List Char) : Bool :=
  match cs with
  | [] => false
  | c :: _ => c.isDigit

/-! ## Digit rendering lemmas -/

theorem digitChar_isDigit {k : Nat} (hk : k < 10) :
    (digitChar k).isDigit = true := by
  interval_cases k <;> decide

theorem digitChar_toNat {k : Nat} (hk : k < 10) :
    (digitChar k).toNat = 48 + k := by
  interval_cases k <;> decide

theorem natDigitsAux_acc (fuel : Nat) :
    ∀ n acc, natDigitsAux fuel n acc = natDigitsAux fuel n [] ++ acc := by
  induction fuel with
  | zero => intro n acc; simp [natDigitsAux]
  | succ fuel ih =>
    intro n acc
    by_cases h : n < 10
    · simp [natDigitsAux, h]
    · simp only [natDigitsAux, if_neg h]
      rw [ih (n / 10) (digitChar (n % 10) :: acc), ih (n / 10) [digitChar (n % 10)]]
      simp

theorem natDigitsAux_fuel (f1 : Nat) :
    ∀ f2 n acc, n < 10 ^ f1 → 0 < f1 → n < 10 ^ f2 → 0 < f2 →
      natDigitsAux f1 n acc = natDigitsAux f2 n acc := by
  induction f1 with
  | zero => intro f2 n acc _ h; exact absurd h (by omega)
  | succ f1 ih =>
    intro f2 n acc h1 _ h2 hf2
    obtain ⟨f2, rfl⟩ : ∃ k, f2 = k + 1 := ⟨f2 - 1, by omega⟩
    by_cases h : n < 10
    · simp [natDigitsAux, h]
    · simp only [natDigitsAux, if_neg h]
      have hd1 : n / 10 < 10 ^ f1 := by
        rw [Nat.div_lt_iff_lt_mul (by norm_num)]
        calc n < 10 ^ (f1 + 1) := h1
        _ = 10 ^ f1 * 10 := by ring
      have hd2 : n / 10 < 10 ^ f2 := by
        rw [Nat.div_lt_iff_lt_mul (by norm_num)]
        calc n < 10 ^ (f2 + 1) := h2
        _ = 10 ^ f2 * 10 := by ring
      have hp1 : 0 < f1 := by
        by_contra hc
        have : f1 = 0 := by omega
        subst this
        simp at h1
        omega
      have hp2 : 0 < f2 := by
        by_contra hc
        have : f2 = 0 := by omega
        subst this
        simp at h2
        omega
      exact ih f2 (n / 10) (digitChar (n % 10) :: acc) hd1 hp1 hd2 hp2

theorem lt_ten_pow (n : Nat) : n < 10 ^ n :=
  lt_of_lt_of_le (Nat.lt_two_pow n) (Nat.pow_le_pow_left (by norm_num) n)

/-- The recursion equation of `natDigits`. -/
theorem natDigits_eq (n : Nat) :
    natDigits n =
      if n < 10 then [digitChar n]
      else natDigits (n / 10) ++ [digitChar (n % 10)] := by
  by_cases h : n < 10
  · simp [natDigits, natDigitsAux, h]
  · simp only [natDigits, natDigitsAux, if_neg h]
    rw [natDigitsAux_acc]
    congr 1
    have h10 : (10 : Nat) ≤ n := by omega
    refine natDigitsAux_fuel n (n / 10 + 1) (n / 10) [] ?_ (by omega) ?_ (by omega)
    · calc n / 10 ≤ n := Nat.div_le_self n 10
      _ < 10 ^ n := lt_ten_pow n
    · calc n / 10 < 10 ^ (n / 10) := lt_ten_pow (n / 10)
      _ ≤ 10 ^ (n / 10 + 1) := Nat.pow_le_pow_right (by norm_num) (by omega)

theorem natDigits_ne_nil (n : Nat) : natDigits n ≠ [] := by
  rw [natDigits_eq]
  by_cases h : n < 10 <;> simp [h]

theorem natDigits_all_digit (n : Nat) :
    ∀ c ∈ natDigits n, c.isDigit = true := by
  induction n using Nat.strong_induction_on with
  | _ n ih =>
    rw [natDigits_eq]
    by_cases h : n < 10
    · simp only [if_pos h, List.mem_singleton]
      rintro c rfl
      exact digitChar_isDigit h
    · simp only [if_neg h, List.mem_append, List.mem_singleton]
      rintro c (hc | rfl)
      · exact ih (n / 10) (Nat.div_lt_self (by omega) (by norm_num)) c hc
      · exact digitChar_isDigit (Nat.mod_lt n (by norm_num))

theorem digitsVal_natDigits (n : Nat) : digitsVal (natDigits n) = n := by
  induction n using Nat.strong_induction_on with
  | _ n ih =>
    rw [natDigits_eq]
    by_cases h : n < 10
    · simp only [if_pos h, digitsVal, List.foldl_cons, List.foldl_nil]
      rw [digitChar_toNat h]
      omega
    · simp only [if_neg h, digitsVal, List.foldl_append, List.foldl_cons,
        List.foldl_nil]
      have := ih (n / 10) (Nat.div_lt_self (by omega) (by norm_num))
      simp only [digitsVal] at this
      rw [this, digitChar_toNat (Nat.mod_lt n (by norm_num))]
      omega

theorem natDigits_length_le (n : Nat) :
    ∀ k, 0 < k → n < 10 ^ k → (natDigits n).length ≤ k := by
  induction n using Nat.strong_induction_on with
  | _ n ih =>
    intro k hk hn
    rw [natDigits_eq]
    by_cases h : n < 10
    · simp only [if_pos h, List.length_singleton]
      omega
    · simp only [if_neg h, List.length_append, List.length_singleton]
      obtain ⟨k, rfl⟩ : ∃ j, k = j + 1 := ⟨k - 1, by omega⟩
      have hk1 : 0 < k := by
        by_contra hc
        have : k = 0 := by omega
        subst this
        simp at hn
        omega
      have : n / 10 < 10 ^ k := by
        rw [Nat.div_lt_iff_lt_mul (by norm_num)]
        calc n < 10 ^ (k + 1) := hn
        _ = 10 ^ k * 10 := by ring
      have := ih (n / 10) (Nat.div_lt_self (by omega) (by norm_num)) k hk1 this
      omega

/-! ## Padding lemmas -/

theorem digitsVal_foldl_zeros (k : Nat) :
    ∀ ds, List.foldl (fun a c => a * 10 + (c.toNat - 48)) 0
        (List.replicate k '0' ++ ds) =
      List.foldl (fun a c => a * 10 + (c.toNat - 48)) 0 ds := by
  induction k with
  | zero => intro ds; simp
  | succ k ih =>
    intro ds
    rw [List.replicate_succ, List.cons_append, List.foldl_cons]
    simpa using ih ds

theorem digitsVal_padZero (w : Nat) (ds : List Char) :
    digitsVal (padZero w ds) = digitsVal ds := by
  simp only [digitsVal, padZero]
  exact digitsVal_foldl_zeros (w - ds.length) ds

theorem padZero_all_digit (w : Nat) (ds : List Char)
    (h : ∀ c ∈ ds, c.isDigit = true) :
    ∀ c ∈ padZero w ds, c.isDigit = true := by
  intro c hc
  rw [padZero, List.mem_append] at hc
  rcases hc with hc | hc
  · rw [List.eq_of_mem_replicate hc]
    decide
  · exact h c hc

theorem padZero_length (w : Nat) (ds : List Char) (h : ds.length ≤ w) :
    (padZero w ds).length = w := by
  simp [padZero]
  omega

theorem padZero_ne_nil (w : Nat) (ds : List Char) (h : ds ≠ []) :
    padZero w ds ≠ [] := by
  simp [padZero, h]

theorem fmtNatPad_all_digit (w n : Nat) :
    ∀ c ∈ fmtNatPad w n, c.isDigit = true :=
  padZero_all_digit w (natDigits n) (natDigits_all_digit n)

theorem fmtNatPad_length (w n : Nat) (hw : 0 < w) (hn : n < 10 ^ w) :
    (fmtNatPad w n).length = w :=
  padZero_length w (natDigits n) (natDigits_length_le n w hw hn)

theorem fmtNatPad_val (w n : Nat) : digitsVal (fmtNatPad w n) = n := by
  rw [fmtNatPad, digitsVal_padZero, digitsVal_natDigits]

theorem fmtNatPad_ne_nil (w n : Nat) : fmtNatPad w n ≠ [] :=
  padZero_ne_nil w (natDigits n) (natDigits_ne_nil n)

/-! ## Digit-run reading lemmas -/

theorem readDigitsAux_digits (ds : List Char) :
    ∀ v k rest, (∀ c ∈ ds, c.isDigit = true) →
      readDigitsAux v k (ds ++ rest) =
        readDigitsAux (List.foldl (fun a c => a * 10 + (c.toNat - 48)) v ds)
          (k + ds.length) rest := by
  induction ds with
  | nil => intro v k rest _; simp
  | cons c ds ih =>
    intro v k rest h
    have hc : c.isDigit = true := h c (List.mem_cons_self c ds)
    rw [List.cons_append, readDigitsAux, if_pos hc,
      ih _ _ rest (fun x hx => h x (List.mem_cons_of_mem c hx))]
    simp only [List.foldl_cons, List.length_cons]
    congr 1
    omega

theorem readDigitsAux_stop (v k : Nat) (rest : List Char)
    (h : headDigit rest = false) : readDigitsAux v k rest = (v, k, rest) := by
  cases rest with
  | nil => rfl
  | cons c cs =>
    simp only [headDigit] at h
    simp [readDigitsAux, h]

theorem readDigits_run (ds rest : List Char) (hne : ds ≠ [])
    (hds : ∀ c ∈ ds, c.isDigit = true) (hrest : headDigit rest = false) :
    readDigits (ds ++ rest) = some (digitsVal ds, ds.length, rest) := by
  cases ds with
  | nil => exact absurd rfl hne
  | cons c cs =>
    have hc : c.isDigit = true := hds c (List.mem_cons_self c cs)
    rw [List.cons_append, readDigits, if_pos hc, ← List.cons_append,
      readDigitsAux_digits (c :: cs) 0 0 rest hds, readDigitsAux_stop _ _ _ hrest]
    simp [digitsVal]

theorem readDigits_natDigits (n : Nat) (rest : List Char)
    (hrest : headDigit rest = false) :
    readDigits (natDigits n ++ rest) = some (n, (natDigits n).length, rest) := by
  rw [readDigits_run (natDigits n) rest (natDigits_ne_nil n)
    (natDigits_all_digit n) hrest, digitsVal_natDigits]

theorem readDigits_pad (w n : Nat) (rest : List Char) (hw : 0 < w)
    (hn : n < 10 ^ w) (hrest : headDigit rest = false) :
    readDigits (fmtNatPad w n ++ rest) = some (n, w, rest) := by
  rw [readDigits_run (fmtNatPad w n) rest (fmtNatPad_ne_nil w n)
    (fmtNatPad_all_digit w n) hrest, fmtNatPad_val, fmtNatPad_length w n hw hn]

/-! ## Head-shape lemmas -/

theorem headDigit_append_pad (w n : Nat) (rest : List Char) :
    headDigit (fmtNatPad w n ++ rest) = true := by
  obtain ⟨c, cs, hcons⟩ : ∃ c cs, fmtNatPad w n = c :: cs := by
    cases h : fmtNatPad w n with
    | nil => exact absurd h (fmtNatPad_ne_nil w n)
    | cons c cs => exact ⟨c, cs, rfl⟩
  rw [hcons, List.cons_append]
  simp only [headDigit]
  exact fmtNatPad_all_digit w n c (by rw [hcons]; exact List.mem_cons_self c cs)

theorem headDigit_append_natDigits (n : Nat) (rest : List Char) :
    headDigit (natDigits n ++ rest) = true := by
  obtain ⟨c, cs, hcons⟩ : ∃ c cs, natDigits n = c :: cs := by
    cases h : natDigits n with
    | nil => exact absurd h (natDigits_ne_nil n)
    | cons c cs => exact ⟨c, cs, rfl⟩
  rw [hcons, List.cons_append]
  simp only [headDigit]
  exact natDigits_all_digit n c (by rw [hcons]; exact List.mem_cons_self c cs)

theorem head_ne_of_headDigit {cs : List Char} (h : headDigit cs = true)
    {c : Char} (hc : c.isDigit = false) : cs.head? ≠ some c := by
  cases cs with
  | nil => simp
  | cons d ds =>
    simp only [headDigit] at h
    simp only [List.head?_cons]
    intro he
    rw [Option.some.inj he, hc] at h
    exact Bool.false_ne_true h

/-! ## Cast lemmas -/

theorem wrap32_small {x : Int} (h1 : -2147483648 ≤ x) (h2 : x < 2147483648) :
    wrap32 x = x := by
  unfold wrap32
  omega

theorem u32cast_small {n : Nat} (h : n < 4294967296) : u32cast n = n :=
  Nat.mod_eq_of_lt h

theorem u8cast_small {n : Nat} (h : n < 256) : u8cast n = n :=
  Nat.mod_eq_of_lt h

/-! ## Stage lemmas for the parser on formatted text -/

theorem stripMinus_of_digit {cs : List Char} (h : headDigit cs = true) :
    stripMinus cs = (false, cs) := by
  rw [stripMinus, if_neg (head_ne_of_headDigit h (by decide))]

theorem dateDisamb_sep (ry mo d : Nat) (rest : List Char) (hmo : mo < 100)
    (hd : d < 100) (hrest : headDigit rest = false) :
    dateDisamb ry ('-' :: (fmtNatPad 2 mo ++ ('-' :: (fmtNatPad 2 d ++ rest)))) =
      some (ry, mo, d, rest) := by
  rw [dateDisamb]
  rw [if_neg (by simp), if_pos (by simp)]
  simp only [List.tail_cons]
  rw [readDigits_pad 2 mo _ (by norm_num) (by omega) (by simp [headDigit])]
  simp only [List.head?_cons, if_pos rfl, List.tail_cons]
  rw [readDigits_pad 2 d rest (by norm_num) (by omega) hrest]
  simp

theorem parseTime_sep (h mi s : Nat) (rest : List Char) (hh : h < 100)
    (hmi : mi < 100) (hs : s < 100) (hrest : headDigit rest = false) :
    parseTime (fmtNatPad 2 h ++
        (':' :: (fmtNatPad 2 mi ++ (':' :: (fmtNatPad 2 s ++ rest))))) =
      some (h, mi, s, rest) := by
  rw [parseTime]
  rw [readDigits_pad 2 h _ (by norm_num) (by omega) (by simp [headDigit])]
  simp only [List.head?_cons, if_pos rfl, List.tail_cons]
  rw [readDigits_pad 2 mi _ (by norm_num) (by omega) (by simp [headDigit])]
  simp only [List.head?_cons, if_pos rfl, List.tail_cons]
  rw [readDigits_pad 2 s rest (by norm_num) (by omega) hrest]
  simp

theorem parseFrac_absent {cs : List Char} (h : cs.head? ≠ some '.') :
    parseFrac cs = some (0, 0, cs) := by
  rw [parseFrac, if_neg h]

theorem parseFrac_sep (p ns : Nat) (rest : List Char) (hp : 0 < p)
    (hp9 : p ≤ 9) (hns : ns < 1000000000) (hdvd : 10 ^ (9 - p) ∣ ns)
    (hrest : headDigit rest = false) :
    parseFrac ('.' :: (fmtNatPad p (ns / 10 ^ (9 - p)) ++ rest)) =
      some (ns, p, rest) := by
  have hv : ns / 10 ^ (9 - p) < 10 ^ p := by
    rw [Nat.div_lt_iff_lt_mul (Nat.pos_pow_of_pos _ (by norm_num))]
    calc ns < 1000000000 := hns
    _ ≤ 10 ^ p * 10 ^ (9 - p) := by
      rw [← pow_add]
      have : p + (9 - p) = 9 := by omega
      rw [this]
      norm_num
  rw [parseFrac, if_pos (by simp), List.tail_cons,
    readDigits_pad p _ rest hp hv hrest]
  have hmul : ns / 10 ^ (9 - p) * 10 ^ (9 - p) = ns := Nat.div_mul_cancel hdvd
  rcases Nat.lt_or_ge p 9 with h9 | h9
  · simp only [fracAdjust, if_pos h9]
    rw [hmul, Nat.mod_eq_of_lt (by omega)]
  · have hp9e : p = 9 := by omega
    subst hp9e
    simp [fracAdjust]

theorem parseTz_absent {cs : List Char} (h1 : cs.head? ≠ some '+')
    (h2 : cs.head? ≠ some '-') (h3 : cs.head? ≠ some 'Z') :
    parseTz cs = some (0, 0, false, cs) := by
  rw [parseTz, if_neg h1, if_neg h2, if_neg h3]

theorem tzStage_fmtTz_false (tzh tzm : Int) :
    tzStage (fmtTz false tzh tzm) = some (0, 0, false, []) := rfl

theorem tzStage_fmtTz_true (tzh tzm : Int) (hh : tzh.natAbs < 100)
    (hm : tzm.natAbs < 100) (hpos : 0 ≤ tzh → 0 ≤ tzm)
    (hneg : tzh < 0 → tzm ≤ 0) :
    tzStage (fmtTz true tzh tzm) = some (tzh, tzm, true, []) := by
  rw [fmtTz, if_pos rfl, tzStage, skipOneSpace, if_pos (by simp),
    List.tail_cons, fmtPlusPad3]
  rcases Int.lt_or_le tzh 0 with hneg1 | hpos1
  · rw [if_pos hneg1, List.cons_append, parseTz, if_neg (by simp), if_pos (by simp),
      List.tail_cons,
      readDigits_pad 2 tzh.natAbs _ (by norm_num) (by omega) (by simp [headDigit])]
    simp only [List.head?_cons, if_pos rfl, List.tail_cons]
    rw [← List.append_nil (fmtNatPad 2 tzm.natAbs),
      readDigits_pad 2 tzm.natAbs [] (by norm_num) (by omega) (by simp [headDigit])]
    have e1 : wrap32 (tzh.natAbs : Int) = (tzh.natAbs : Int) :=
      wrap32_small (by omega) (by omega)
    have e2 : wrap32 (tzm.natAbs : Int) = (tzm.natAbs : Int) :=
      wrap32_small (by omega) (by omega)
    have e3 : wrap32 (-(tzh.natAbs : Int)) = tzh := by
      rw [wrap32_small (by omega) (by omega)]
      omega
    have e4 : wrap32 (-(tzm.natAbs : Int)) = tzm := by
      have := hneg hneg1
      rw [wrap32_small (by omega) (by omega)]
      omega
    have f1 : wrap32 |tzh| = |tzh| := by rw [Int.abs_eq_natAbs]; exact e1
    have f2 : wrap32 |tzm| = |tzm| := by rw [Int.abs_eq_natAbs]; exact e2
    have f3 : wrap32 (-|tzh|) = tzh := by rw [Int.abs_eq_natAbs]; exact e3
    have f4 : wrap32 (-|tzm|) = tzm := by rw [Int.abs_eq_natAbs]; exact e4
    simp [e1, e2, e3, e4, f1, f2, f3, f4]
  · rw [if_neg (by omega), List.cons_append, parseTz, if_pos (by simp),
      List.tail_cons,
      readDigits_pad 2 tzh.natAbs _ (by norm_num) (by omega) (by simp [headDigit])]
    simp only [List.head?_cons, if_pos rfl, List.tail_cons]
    rw [← List.append_nil (fmtNatPad 2 tzm.natAbs),
      readDigits_pad 2 tzm.natAbs [] (by norm_num) (by omega) (by simp [headDigit])]
    have e1 : wrap32 (tzh.natAbs : Int) = tzh := by
      rw [wrap32_small (by omega) (by omega)]
      omega
    have e2 : wrap32 (tzm.natAbs : Int) = tzm := by
      have := hpos hpos1
      rw [wrap32_small (by omega) (by omega)]
      omega
    have f1 : wrap32 |tzh| = tzh := by rw [Int.abs_eq_natAbs]; exact e1
    have f2 : wrap32 |tzm| = tzm := by rw [Int.abs_eq_natAbs]; exact e2
    simp [e1, e2, f1, f2]

/-! ## The canonical-layout round trip -/

/-- The ten-armed precision match of the formatter, in closed form. -/
theorem fmtFrac_canon (p ns : Nat) (hp : p ≤ 9) :
    fmtFrac p ns =
      if p = 0 then [] else '.' :: fmtNatPad p (ns / 10 ^ (9 - p)) := by
  interval_cases p <;> simp [fmtFrac]

theorem headDigit_fmtTz (wtz : Bool) (tzh tzm : Int) :
    headDigit (fmtTz wtz tzh tzm) = false := by
  cases wtz <;> rfl

theorem fmtTz_head_ne_dot (wtz : Bool) (tzh tzm : Int) :
    (fmtTz wtz tzh tzm).head? ≠ some '.' := by
  cases wtz
  · intro h
    simp [fmtTz] at h
  · intro h
    rw [fmtTz, if_pos rfl, List.head?_cons] at h
    exact absurd (Option.some.inj h) (by decide)

theorem headDigit_fracTz (p ns : Nat) (hp : p ≤ 9) (wtz : Bool)
    (tzh tzm : Int) :
    headDigit (fmtFrac p ns ++ fmtTz wtz tzh tzm) = false := by
  rw [fmtFrac_canon p ns hp]
  by_cases h : p = 0
  · rw [if_pos h, List.nil_append]
    exact headDigit_fmtTz wtz tzh tzm
  · rw [if_neg h, List.cons_append]
    rfl

/-- The parser re-reads every string the formatter lays out in the full
canonical shape, producing exactly the assembled record of the source's
final lines.  `mb` is the leading-minus flag, `n` the absolute year. -/
theorem parseChars_canonical (mb : Bool) (n mo d h mi s ns p : Nat)
    (tzh tzm : Int) (wtz : Bool) (hmo : mo < 100) (hd : d < 100)
    (hh : h < 100) (hmi : mi < 100) (hs : s < 100) (hns : ns < 1000000000)
    (hp : p ≤ 9) (hdvd : 10 ^ (9 - p) ∣ ns)
    (htz : wtz = true → tzh.natAbs < 100 ∧ tzm.natAbs < 100 ∧
      (0 ≤ tzh → 0 ≤ tzm) ∧ (tzh < 0 → tzm ≤ 0)) :
    parseChars ((if mb then '-' :: natDigits n else natDigits n) ++
        ('-' :: (fmtNatPad 2 mo ++
          ('-' :: (fmtNatPad 2 d ++
            (' ' :: (fmtNatPad 2 h ++
              (':' :: (fmtNatPad 2 mi ++
                (':' :: (fmtNatPad 2 s ++
                  (fmtFrac p ns ++ fmtTz wtz tzh tzm)))))))))))) =
      some (buildTs mb n mo d h mi s ns p tzh tzm wtz) := by
  have hZhead : headDigit (fmtTz wtz tzh tzm) = false :=
    headDigit_fmtTz wtz tzh tzm
  have hFZhead : headDigit (fmtFrac p ns ++ fmtTz wtz tzh tzm) = false :=
    headDigit_fracTz p ns hp wtz tzh tzm
  have hstrip : stripMinus ((if mb then '-' :: natDigits n else natDigits n) ++
      ('-' :: (fmtNatPad 2 mo ++
        ('-' :: (fmtNatPad 2 d ++
          (' ' :: (fmtNatPad 2 h ++
            (':' :: (fmtNatPad 2 mi ++
              (':' :: (fmtNatPad 2 s ++
                (fmtFrac p ns ++ fmtTz wtz tzh tzm)))))))))))) =
      (mb, natDigits n ++
        ('-' :: (fmtNatPad 2 mo ++
          ('-' :: (fmtNatPad 2 d ++
            (' ' :: (fmtNatPad 2 h ++
              (':' :: (fmtNatPad 2 mi ++
                (':' :: (fmtNatPad 2 s ++
                  (fmtFrac p ns ++ fmtTz wtz tzh tzm)))))))))))) := by
    cases mb
    · rw [if_neg (by simp)]
      exact stripMinus_of_digit (headDigit_append_natDigits n _)
    · rw [if_pos rfl, List.cons_append]
      simp [stripMinus]
  rw [parseChars, hstrip]
  simp only []
  rw [readDigits_natDigits n _ (by rfl)]
  simp only []
  rw [dateDisamb_sep n mo d _ hmo hd (by rfl)]
  simp only [List.head?_cons, List.tail_cons]
  rw [if_neg (by simp), if_pos (Or.inr trivial)]
  rw [parseTime_sep h mi s _ hh hmi hs hFZhead]
  simp only []
  by_cases hp0 : p = 0
  · subst hp0
    have hns0 : ns = 0 := Nat.eq_zero_of_dvd_of_lt hdvd (by norm_num at hns ⊢; omega)
    subst hns0
    rw [fmtFrac_canon 0 0 hp, if_pos rfl, List.nil_append,
      parseFrac_absent (fmtTz_head_ne_dot wtz tzh tzm)]
    simp only []
    cases wtz
    · rw [tzStage_fmtTz_false tzh tzm]
      simp only [if_pos rfl]
      rfl
    · obtain ⟨h1, h2, h3, h4⟩ := htz rfl
      rw [tzStage_fmtTz_true tzh tzm h1 h2 h3 h4]
      rfl
  · have hp1 : 0 < p := Nat.pos_of_ne_zero hp0
    rw [fmtFrac_canon p ns hp, if_neg hp0, List.cons_append,
      parseFrac_sep p ns _ hp1 hp hns hdvd hZhead]
    simp only []
    cases wtz
    · rw [tzStage_fmtTz_false tzh tzm]
      simp only [if_pos rfl]
      rfl
    · obtain ⟨h1, h2, h3, h4⟩ := htz rfl
      rw [tzStage_fmtTz_true tzh tzm h1 h2 h3 h4]
      rfl

theorem wrap32_natAbs_nonneg {y : Int} (h0 : 0 ≤ y) (h2 : y < 2147483648) :
    wrap32 ((y.natAbs : Int)) = y := by
  unfold wrap32
  omega

theorem wrap32_natAbs_neg {y : Int} (h1 : -2147483648 ≤ y) (h0 : y < 0) :
    wrap32 (-wrap32 ((y.natAbs : Int))) = y := by
  unfold wrap32
  omega

/-- A `Timestamp` with stored offsets but `with_tz = false`: every
condition the round-trip claim lists holds of it. -/
def c1CexTs : Timestamp :=
  ⟨2012, 3, 4, 5, 6, 7, 0, 8, 45, 0, false⟩

/-- A negative-year, fractional, negative-offset value for instantiating
the round trip. -/
def c1WitTs : Timestamp :=
  ⟨-123, 3, 4, 5, 6, 7, 123000000, -8, -45, 3, true⟩

/-- C1 (corrected): the claim as stated is false on the code.  `c1CexTs`
satisfies every condition the claim lists — precision between 0 and 9,
nanosecond divisible by `10^(9-precision)`, month, day, hour, minute and
second within two decimal digits, and `with_tz = false` so the claim
imposes nothing on the offsets — yet `parse(format(t)) ≠ t`: the stored
offsets `(8, 45)` are not rendered and parse back as `(0, 0)`. -/
theorem c1_roundtrip_cex :
    c1CexTs.precision ≤ 9 ∧
      10 ^ (9 - c1CexTs.precision) ∣ c1CexTs.nanosecond ∧
      c1CexTs.month < 100 ∧ c1CexTs.day < 100 ∧ c1CexTs.hour < 100 ∧
      c1CexTs.minute < 100 ∧ c1CexTs.second < 100 ∧
      c1CexTs.with_tz = false ∧
      parseTimestamp (toStringTs c1CexTs) ≠ some c1CexTs := by
  refine ⟨by decide, by decide, by decide, by decide, by decide, by decide,
    by decide, by decide, ?_⟩
  decide

/-- C1 (amended): for every `Timestamp` whose year is in `i32` range,
whose precision is between 0 and 9, whose nanosecond is below `10^9` and
divisible by `10^(9-precision)`, whose month, day, hour, minute and
second are within two decimal digits, whose offsets are `(0, 0)` whenever
`with_tz` is false, and whose offsets have magnitudes below 100 with the
minute offset weakly sharing the hour offset's sign whenever `with_tz` is
true, parsing the formatted string yields exactly the value:
`parse(format(t)) = t`. -/
theorem c1_parse_format_roundtrip (ts : Timestamp)
    (hyl : -2147483648 ≤ ts.year) (hyu : ts.year < 2147483648)
    (hmo : ts.month < 100) (hd : ts.day < 100) (hh : ts.hour < 100)
    (hmi : ts.minute < 100) (hs : ts.second < 100)
    (hns : ts.nanosecond < 1000000000) (hp : ts.precision ≤ 9)
    (hdvd : 10 ^ (9 - ts.precision) ∣ ts.nanosecond)
    (htzt : ts.with_tz = true → ts.tz_hour_offset.natAbs < 100 ∧
      ts.tz_minute_offset.natAbs < 100 ∧
      (0 ≤ ts.tz_hour_offset → 0 ≤ ts.tz_minute_offset) ∧
      (ts.tz_hour_offset < 0 → ts.tz_minute_offset ≤ 0))
    (htzf : ts.with_tz = false →
      ts.tz_hour_offset = 0 ∧ ts.tz_minute_offset = 0) :
    parseTimestamp (toStringTs ts) = some ts := by
  obtain ⟨y, mo, d, h, mi, s, ns, tzh, tzm, p, wtz⟩ := ts
  simp only at hyl hyu hmo hd hh hmi hs hns hp hdvd htzt htzf
  show parseChars (fmtTimestamp ⟨y, mo, d, h, mi, s, ns, tzh, tzm, p, wtz⟩) =
    some ⟨y, mo, d, h, mi, s, ns, tzh, tzm, p, wtz⟩
  simp only [fmtTimestamp]
  rcases Int.lt_or_le y 0 with hy | hy
  · rw [fmtInt, if_pos hy]
    have hcan := parseChars_canonical true y.natAbs mo d h mi s ns p tzh tzm
      wtz hmo hd hh hmi hs hns hp hdvd htzt
    rw [if_pos rfl] at hcan
    rw [hcan]
    have hyr : wrap32 (-wrap32 ((y.natAbs : Int))) = y := wrap32_natAbs_neg hyl hy
    have hyr2 : wrap32 (-wrap32 |y|) = y := by rw [Int.abs_eq_natAbs]; exact hyr
    cases wtz
    · obtain ⟨hz1, hz2⟩ := htzf rfl
      subst hz1
      subst hz2
      simp [buildTs, Timestamp.new, Timestamp.and_tz_hm_offset, hyr, hyr2,
        u32cast_small (by omega : mo < 4294967296),
        u32cast_small (by omega : d < 4294967296),
        u32cast_small (by omega : h < 4294967296),
        u32cast_small (by omega : mi < 4294967296),
        u32cast_small (by omega : s < 4294967296),
        u32cast_small (by omega : ns < 4294967296),
        u8cast_small (by omega : p < 256)]
    · simp [buildTs, Timestamp.new, Timestamp.and_tz_hm_offset, hyr, hyr2,
        u32cast_small (by omega : mo < 4294967296),
        u32cast_small (by omega : d < 4294967296),
        u32cast_small (by omega : h < 4294967296),
        u32cast_small (by omega : mi < 4294967296),
        u32cast_small (by omega : s < 4294967296),
        u32cast_small (by omega : ns < 4294967296),
        u8cast_small (by omega : p < 256)]
  · rw [fmtInt, if_neg (by omega)]
    have hcan := parseChars_canonical false y.natAbs mo d h mi s ns p tzh tzm
      wtz hmo hd hh hmi hs hns hp hdvd htzt
    rw [if_neg (by simp)] at hcan
    rw [hcan]
    have hyr : wrap32 ((y.natAbs : Int)) = y := wrap32_natAbs_nonneg hy hyu
    have hyr2 : wrap32 |y| = y := by rw [Int.abs_eq_natAbs]; exact hyr
    cases wtz
    · obtain ⟨hz1, hz2⟩ := htzf rfl
      subst hz1
      subst hz2
      simp [buildTs, Timestamp.new, Timestamp.and_tz_hm_offset, hyr, hyr2,
        u32cast_small (by omega : mo < 4294967296),
        u32cast_small (by omega : d < 4294967296),
        u32cast_small (by omega : h < 4294967296),
        u32cast_small (by omega : mi < 4294967296),
        u32cast_small (by omega : s < 4294967296),
        u32cast_small (by omega : ns < 4294967296),
        u8cast_small (by omega : p < 256)]
    · simp [buildTs, Timestamp.new, Timestamp.and_tz_hm_offset, hyr, hyr2,
        u32cast_small (by omega : mo < 4294967296),
        u32cast_small (by omega : d < 4294967296),
        u32cast_small (by omega : h < 4294967296),
        u32cast_small (by omega : mi < 4294967296),
        u32cast_small (by omega : s < 4294967296),
        u32cast_small (by omega : ns < 4294967296),
        u8cast_small (by omega : p < 256)]

/-- C1: witness for the amended round trip, at the negative-year,
fractional, negative-offset value `c1WitTs`. -/
theorem c1_roundtrip_witness :
    parseTimestamp (toStringTs c1WitTs) = some c1WitTs :=
  c1_parse_format_roundtrip c1WitTs (by decide) (by decide) (by decide)
    (by decide) (by decide) (by decide) (by decide) (by decide) (by decide)
    (by decide) (by decide) (by decide)

/-- C2: the fraction step sets `precision = min(d, 9)`; fewer than 9
digits scale the value by `10^(9-d)`, more than 9 truncate it by
`10^(d-9)` (integer division, no rounding) and force precision 9; and the
two over-long test inputs both parse to nanosecond `890123456` with
precision `9`.  The side conditions `v < 10^d` (the value of a `d`-digit
run) and `d ≤ 19` (a run representable in the `u64` the source computes
in) scope the closed-form statement. -/
theorem c2_frac_truncation :
    (∀ v d : Nat, v < 10 ^ d → d ≤ 19 →
      fracAdjust v d =
        (if d < 9 then v * 10 ^ (9 - d) else v / 10 ^ (d - 9), min d 9)) ∧
    parseTimestamp "2012-03-04 05:06:07.8901234567" =
      some ⟨2012, 3, 4, 5, 6, 7, 890123456, 0, 0, 9, false⟩ ∧
    parseTimestamp "2012-03-04 05:06:07.89012345678" =
      some ⟨2012, 3, 4, 5, 6, 7, 890123456, 0, 0, 9, false⟩ := by
  refine ⟨?_, by decide, by decide⟩
  intro v d hv hd
  unfold fracAdjust
  rcases Nat.lt_or_ge d 9 with h9 | h9
  · rw [if_pos h9, if_pos h9]
    have hlt : v * 10 ^ (9 - d) < 1000000000 := by
      calc v * 10 ^ (9 - d) < 10 ^ d * 10 ^ (9 - d) :=
        (Nat.mul_lt_mul_right (Nat.pos_pow_of_pos _ (by norm_num))).mpr hv
      _ = 10 ^ 9 := by rw [← pow_add]; congr 1; omega
      _ = 1000000000 := by norm_num
    rw [Nat.mod_eq_of_lt (by omega), Nat.min_def, if_pos (by omega : d ≤ 9)]
  · rcases Nat.eq_or_lt_of_le h9 with h9e | h9l
    · rw [if_neg (by omega), if_neg (by omega), if_neg (by omega), ← h9e]
      simp
    · rw [if_neg (by omega), if_pos h9l, if_neg (by omega)]
      have hpow : 10 ^ (d - 9) < 18446744073709551616 := by
        calc 10 ^ (d - 9) ≤ 10 ^ 10 := Nat.pow_le_pow_right (by norm_num) (by omega)
        _ < 18446744073709551616 := by norm_num
      rw [Nat.mod_eq_of_lt hpow, Nat.min_def, if_neg (by omega)]

/-- C2: witness instantiating the closed form at the 10-digit run
`8901234567`. -/
theorem c2_frac_truncation_witness : fracAdjust 8901234567 10 = (890123456, 9) := by
  have h := c2_frac_truncation.1 8901234567 10 (by norm_num) (by norm_num)
  rw [h]
  norm_num

theorem headDigit_append_digits (cs rest : List Char) (hne : cs ≠ [])
    (hds : ∀ c ∈ cs, c.isDigit = true) : headDigit (cs ++ rest) = true := by
  cases cs with
  | nil => exact absurd rfl hne
  | cons c t =>
    rw [List.cons_append]
    simp only [headDigit]
    exact hds c (List.mem_cons_self c t)

/-- The date-disambiguation step on an end-of-input, `T` or space
lookahead, in closed form. -/
theorem dateDisamb_sepChar (v : Nat) (cs : List Char)
    (h : cs.head? = none ∨ cs.head? = some 'T' ∨ cs.head? = some ' ') :
    dateDisamb v cs =
      some (if 10000 < v then v / 10000 else v,
        if 10000 < v then v / 100 % 100 else 1,
        if 10000 < v then v % 100 else 1, cs) := by
  rw [dateDisamb, if_pos h]
  by_cases hbig : 10000 < v
  · rw [if_pos hbig, if_pos hbig, if_pos hbig, if_pos hbig]
  · rw [if_neg hbig, if_neg hbig, if_neg hbig, if_neg hbig]

/-- The assembly step on a non-negative year with no timezone, in closed
form. -/
theorem buildTs_simple (y mo d hr mn sc ns pr : Nat) (hy : y < 2147483648)
    (hmo : mo < 4294967296) (hd : d < 4294967296) (hhr : hr < 4294967296)
    (hmn : mn < 4294967296) (hsc : sc < 4294967296) (hns : ns < 4294967296)
    (hpr : pr < 256) :
    buildTs false y mo d hr mn sc ns pr 0 0 false =
      ⟨(y : Int), mo, d, hr, mn, sc, ns, 0, 0, pr, false⟩ := by
  have hw : wrap32 ((y : Nat) : Int) = (y : Int) :=
    wrap32_small (by omega) (by omega)
  simp [buildTs, Timestamp.new, hw, u32cast_small hmo, u32cast_small hd,
    u32cast_small hhr, u32cast_small hmn, u32cast_small hsc,
    u32cast_small hns, u8cast_small hpr]

/-- C3: a leading digit run of value `raw_year` followed by end-of-input,
`T` or space is decomposed as compact `YYYYMMDD` when `raw_year > 10000`
(`day = raw_year % 100`, `month = raw_year / 100 % 100`,
`year = raw_year / 10000`) and as a bare year with month 1 and day 1
otherwise; the `i32`-range bound on the value scopes the statement away
from the final cast wrap. -/
theorem c3_year_disambiguation (cs : List Char) (v : Nat)
    (hds : ∀ c ∈ cs, c.isDigit = true) (hne : cs ≠ [])
    (hv : digitsVal cs = v) (hlt : v < 2147483648) :
    parseChars cs =
      some ⟨((if 10000 < v then v / 10000 else v : Nat) : Int),
        if 10000 < v then v / 100 % 100 else 1,
        if 10000 < v then v % 100 else 1, 0, 0, 0, 0, 0, 0, 0, false⟩ ∧
    parseChars (cs ++ ('T' :: ['0', '5', '0', '6', '0', '7'])) =
      some ⟨((if 10000 < v then v / 10000 else v : Nat) : Int),
        if 10000 < v then v / 100 % 100 else 1,
        if 10000 < v then v % 100 else 1, 5, 6, 7, 0, 0, 0, 0, false⟩ ∧
    parseChars (cs ++ (' ' :: ['0', '5', ':', '0', '6', ':', '0', '7'])) =
      some ⟨((if 10000 < v then v / 10000 else v : Nat) : Int),
        if 10000 < v then v / 100 % 100 else 1,
        if 10000 < v then v % 100 else 1, 5, 6, 7, 0, 0, 0, 0, false⟩ := by
  have hy1 : (if 10000 < v then v / 10000 else v) < 2147483648 := by
    split <;> omega
  have hy2 : (if 10000 < v then v / 100 % 100 else 1) < 4294967296 := by
    split <;> omega
  have hy3 : (if 10000 < v then v % 100 else 1) < 4294967296 := by
    split <;> omega
  have hpf : parseFrac ([] : List Char) = some (0, 0, []) := rfl
  have htz0 : tzStage ([] : List Char) = some (0, 0, false, []) := rfl
  refine ⟨?_, ?_, ?_⟩
  · conv_lhs => rw [← List.append_nil cs]
    rw [parseChars, stripMinus_of_digit (headDigit_append_digits cs [] hne hds)]
    simp only []
    rw [readDigits_run cs [] hne hds rfl]
    simp only []
    rw [hv, dateDisamb_sepChar v [] (Or.inl rfl)]
    simp only []
    rw [if_pos (by trivial),
      buildTs_simple _ _ _ 0 0 0 0 0 hy1 hy2 hy3 (by norm_num) (by norm_num)
        (by norm_num) (by norm_num) (by norm_num)]
  · rw [parseChars,
      stripMinus_of_digit (headDigit_append_digits cs _ hne hds)]
    simp only []
    rw [readDigits_run cs _ hne hds (by rfl)]
    simp only []
    rw [hv, dateDisamb_sepChar v ('T' :: ['0', '5', '0', '6', '0', '7'])
      (Or.inr (Or.inl rfl))]
    simp only []
    rw [if_neg (by simp), if_pos (by simp)]
    simp only [List.tail_cons]
    rw [(by decide : parseTime ['0', '5', '0', '6', '0', '7'] =
      some (5, 6, 7, []))]
    simp only []
    rw [hpf]
    simp only []
    rw [htz0]
    simp only []
    rw [if_pos (by trivial),
      buildTs_simple _ _ _ 5 6 7 0 0 hy1 hy2 hy3 (by norm_num) (by norm_num)
        (by norm_num) (by norm_num) (by norm_num)]
  · rw [parseChars,
      stripMinus_of_digit (headDigit_append_digits cs _ hne hds)]
    simp only []
    rw [readDigits_run cs _ hne hds (by rfl)]
    simp only []
    rw [hv, dateDisamb_sepChar v (' ' :: ['0', '5', ':', '0', '6', ':', '0', '7'])
      (Or.inr (Or.inr rfl))]
    simp only []
    rw [if_neg (by simp), if_pos (by simp)]
    simp only [List.tail_cons]
    rw [(by decide : parseTime ['0', '5', ':', '0', '6', ':', '0', '7'] =
      some (5, 6, 7, []))]
    simp only []
    rw [hpf]
    simp only []
    rw [htz0]
    simp only []
    rw [if_pos (by trivial),
      buildTs_simple _ _ _ 5 6 7 0 0 hy1 hy2 hy3 (by norm_num) (by norm_num)
        (by norm_num) (by norm_num) (by norm_num)]

/-- C3: witness at the compact digit run `20120304`. -/
theorem c3_year_disambiguation_witness :
    parseChars ['2', '0', '1', '2', '0', '3', '0', '4'] =
      some ⟨2012, 3, 4, 0, 0, 0, 0, 0, 0, 0, false⟩ := by
  have h := (c3_year_disambiguation ['2', '0', '1', '2', '0', '3', '0', '4']
    20120304 (by decide) (by decide) (by decide) (by decide)).1
  rw [h]
  decide

/-- C4: a timezone sign with no digits after it, trailing garbage after a
date, and a bare 4-digit time run are all rejected (the parser returns
the malformed-timestamp error, i.e. no `Timestamp` value). -/
theorem c4_malformed_rejected :
    parseTimestamp "2012-03-04 05:06:07+" = none ∧
    parseTimestamp "2012-03-04X" = none ∧
    parseTimestamp "2012-03-04 1234" = none := by
  refine ⟨by decide, by decide, by decide⟩

/-- C5: compact digit-run forms parse to the same values as the
separator-expanded forms, the 6-digit `HHMMSS` run decomposing into
hour 5, minute 6, second 7. -/
theorem c5_compact_expanded_equiv :
    parseTimestamp "20120304" = parseTimestamp "2012-03-04" ∧
    parseTimestamp "20120304T050607" = parseTimestamp "2012-03-04T05:06:07" ∧
    parseTimestamp "20120304T050607" =
      some ⟨2012, 3, 4, 5, 6, 7, 0, 0, 0, 0, false⟩ := by
  refine ⟨by decide, by decide, by decide⟩

/-- C6: compact and colon-separated timezone suffixes parse alike, and a
single space inserted before a timezone offset (a suffix starting with
`+`, `-` or `Z`) never changes the result of the timezone stage. -/
theorem c6_tz_forms_equiv :
    (∀ cs : List Char, (cs.head? = some '+' ∨ cs.head? = some '-' ∨
        cs.head? = some 'Z') → tzStage (' ' :: cs) = tzStage cs) ∧
    parseTimestamp "2012-03-04 05:06:07+0845" =
      parseTimestamp "2012-03-04 05:06:07+08:45" ∧
    parseTimestamp "2012-03-04 05:06:07+0845" =
      some ⟨2012, 3, 4, 5, 6, 7, 0, 8, 45, 0, true⟩ ∧
    parseTimestamp "2012-03-04 05:06:07 +08:45" =
      parseTimestamp "2012-03-04 05:06:07+08:45" := by
  refine ⟨?_, by decide, by decide, by decide⟩
  intro cs h
  rw [tzStage, tzStage, skipOneSpace, skipOneSpace, if_pos (by rfl),
    List.tail_cons, if_neg ?_]
  rcases h with h | h | h <;> rw [h] <;> decide

/-- C6: witness for the space-insertion stage fact, at the compact
suffix `+0845`. -/
theorem c6_tz_forms_witness :
    tzStage (' ' :: ('+' :: ('0' :: ('8' :: ('4' :: ('5' :: [])))))) =
      tzStage ('+' :: ('0' :: ('8' :: ('4' :: ('5' :: []))))) :=
  c6_tz_forms_equiv.1 _ (Or.inl rfl)

/-- The offset-from-total-seconds builder in closed form: both offset
components are computed from the absolute value and never negated. -/
theorem and_tz_offset_eq (ts : Timestamp) (s : Int) (h1 : -2147483648 < s)
    (h2 : s < 2147483648) :
    ts.and_tz_offset s =
      ts.and_tz_hm_offset ((s.natAbs / 3600 : Nat) : Int)
        ((s.natAbs % 3600 / 60 : Nat) : Int) := by
  have key : ∀ t : Int, 0 ≤ t →
      Int.tdiv t 3600 = ((t.natAbs / 3600 : Nat) : Int) ∧
        Int.tdiv (Int.tmod t 3600) 60 = ((t.natAbs % 3600 / 60 : Nat) : Int) := by
    intro t ht
    constructor
    · rw [Int.tdiv_eq_ediv ht (by norm_num)]
      omega
    · rw [Int.tmod_eq_emod ht (by norm_num),
        Int.tdiv_eq_ediv (Int.emod_nonneg t (by norm_num)) (by norm_num)]
      omega
  simp only [Timestamp.and_tz_offset, Timestamp.and_tz_hm_offset]
  rcases Int.le_or_lt 0 s with hs | hs
  · obtain ⟨ha, hb⟩ := key s hs
    rw [if_pos hs, ha, hb]
  · obtain ⟨ha, hb⟩ := key (-s) (by omega)
    rw [if_neg (by omega), ha, hb, Int.natAbs_neg]

/-- C7: counterexample.  The claim says that for a negative total offset
the hour component is negated afterward, so `and_tz_offset (-3600)` would
store hour offset `-1`; the code stores `+1` — the sign is discarded, not
re-applied to the hour. -/
theorem c7_and_tz_offset_cex :
    ((Timestamp.new 2000 1 2 3 4 5 6).and_tz_offset (-3600)).tz_hour_offset
        = 1 ∧
      ((Timestamp.new 2000 1 2 3 4 5 6).and_tz_offset (-3600)).tz_hour_offset
        ≠ -1 := by
  refine ⟨by decide, by decide⟩

/-- C7 (amended): `and_tz_offset` derives the hour and minute offset
magnitudes from the absolute value of its argument by integer division by
3600 and remainder divided by 60, and sets `with_tz`; for a negative
total_seconds it negates neither component — both stay non-negative
magnitudes. -/
theorem c7_and_tz_offset_amended (ts : Timestamp) (s : Int)
    (h1 : -2147483648 < s) (h2 : s < 2147483648) :
    (ts.and_tz_offset s).tz_hour_offset = ((s.natAbs / 3600 : Nat) : Int) ∧
    (ts.and_tz_offset s).tz_minute_offset =
      ((s.natAbs % 3600 / 60 : Nat) : Int) ∧
    (ts.and_tz_offset s).with_tz = true ∧
    0 ≤ (ts.and_tz_offset s).tz_hour_offset ∧
    0 ≤ (ts.and_tz_offset s).tz_minute_offset := by
  rw [and_tz_offset_eq ts s h1 h2]
  exact ⟨rfl, rfl, rfl, Int.natCast_nonneg _, Int.natCast_nonneg _⟩

/-- C7: witness at `-31500` seconds: magnitudes `8` hours `45` minutes,
the hour not negated. -/
theorem c7_and_tz_offset_witness :
    ((Timestamp.new 2012 3 4 5 6 7 0).and_tz_offset (-31500)).tz_hour_offset
        = 8 ∧
      ((Timestamp.new 2012 3 4 5 6 7 0).and_tz_offset
          (-31500)).tz_minute_offset = 45 := by
  have h := c7_and_tz_offset_amended (Timestamp.new 2012 3 4 5 6 7 0)
    (-31500) (by norm_num) (by norm_num)
  refine ⟨?_, ?_⟩
  · rw [h.1]
    decide
  · rw [h.2.1]
    decide

/-- C8: formatting is total — it cannot fail and always produces a
(non-empty) string for any in-memory `Timestamp`, including values with
precision outside 0-9, out-of-range date and time fields, and offset
components of inconsistent signs. -/
theorem c8_format_total :
    (∀ ts : Timestamp, 0 < (fmtTimestamp ts).length) ∧
    toStringTs ⟨2012, 77, 4, 5, 6, 7, 890123456, 8, -45, 250, true⟩ =
      "2012-77-04 05:06:07 +08:45" ∧
    toStringTs ⟨-1, 0, 0, 99, 99, 99, 4294967295, -999, 999, 17, true⟩ =
      "-1-00-00 99:99:99 -999:999" := by
  refine ⟨?_, by decide, by decide⟩
  intro ts
  have hne : fmtInt ts.year ≠ [] := by
    rw [fmtInt]
    rcases Int.lt_or_le ts.year 0 with hy | hy
    · rw [if_pos hy]
      simp
    · rw [if_neg (by omega)]
      exact natDigits_ne_nil _
  have hpos : 0 < (fmtInt ts.year).length := List.length_pos.mpr hne
  rw [fmtTimestamp]
  simp only [List.length_append, List.length_cons]
  omega

/-- C9: the offset-from-total-seconds builder discards the sign of its
argument: negating the argument gives the same `Timestamp`, the stored
offset components are non-negative, and `tz_offset` of the result is the
absolute value rounded down to a whole minute — never negative. -/
theorem c9_and_tz_offset_sign_discard (ts : Timestamp) (s : Int)
    (h1 : -2147483648 < s) (h2 : s < 2147483648) :
    ts.and_tz_offset (-s) = ts.and_tz_offset s ∧
    0 ≤ (ts.and_tz_offset s).tz_hour_offset ∧
    0 ≤ (ts.and_tz_offset s).tz_minute_offset ∧
    (ts.and_tz_offset s).tz_offset = ((s.natAbs / 60 * 60 : Nat) : Int) ∧
    0 ≤ (ts.and_tz_offset s).tz_offset := by
  have he := and_tz_offset_eq ts s h1 h2
  have hen := and_tz_offset_eq ts (-s) (by omega) (by omega)
  have habs : (-s).natAbs = s.natAbs := Int.natAbs_neg s
  refine ⟨?_, ?_, ?_, ?_, ?_⟩
  · rw [he, hen, habs]
  · rw [he]
    exact Int.natCast_nonneg _
  · rw [he]
    exact Int.natCast_nonneg _
  · rw [he]
    simp only [Timestamp.tz_offset, Timestamp.and_tz_hm_offset]
    have harith : (s.natAbs / 3600) * 3600 + (s.natAbs % 3600 / 60) * 60 =
        s.natAbs / 60 * 60 := by omega
    exact_mod_cast harith
  · rw [he]
    simp only [Timestamp.tz_offset, Timestamp.and_tz_hm_offset]
    positivity

/-- C9: witness at `3661` seconds: `and_tz_offset (-3661)` equals
`and_tz_offset 3661` and the derived total offset is `3660`. -/
theorem c9_sign_discard_witness :
    (Timestamp.new 2012 3 4 5 6 7 0).and_tz_offset (-3661) =
        (Timestamp.new 2012 3 4 5 6 7 0).and_tz_offset 3661 ∧
      ((Timestamp.new 2012 3 4 5 6 7 0).and_tz_offset 3661).tz_offset =
        3660 := by
  have h := c9_and_tz_offset_sign_discard (Timestamp.new 2012 3 4 5 6 7 0)
    3661 (by norm_num) (by norm_num)
  refine ⟨h.1, ?_⟩
  rw [h.2.2.2.1]
  decide

/-- C10: an otherwise-valid input with exactly one trailing space parses
successfully, to the same value as without the space and with
`with_tz = false`: the parser unconditionally consumes one space before
looking for a timezone, and a lone space leaves the timezone stage in its
absent branch with the input exhausted. -/
theorem c10_trailing_space_accepted :
    tzStage (' ' :: []) = tzStage [] ∧
    tzStage (' ' :: []) = some (0, 0, false, []) ∧
    parseTimestamp "2012-03-04 05:06:07 " =
      parseTimestamp "2012-03-04 05:06:07" ∧
    (parseTimestamp "2012-03-04 05:06:07 ").map Timestamp.with_tz =
      some false ∧
    parseTimestamp "2012-03-04 05:06:07.8 " =
      parseTimestamp "2012-03-04 05:06:07.8" := by
  refine ⟨by decide, by decide, by decide, by decide, by decide⟩

end RustOracle
